import Mathlib

/-!
Shallow embedding of the go-coinmarketcap client (package coinmarketcap) and
proofs of the specification's claims about it.

Modelling conventions:
* Go strings are Lean `String`s; the Go `strings` helpers used by the source
  (TrimSpace, ToUpper, Replace with an empty replacement, Split) are modelled
  on the underlying character lists so that they evaluate by kernel reduction.
* `float64` values are modelled as exact rationals `ℚ`; `strconv.ParseFloat`
  is modelled on the plain decimal forms that occur in the scraped data
  (optional sign, digits, one optional decimal point).
* Network and HTML-parsing collaborators (the HTTP transport, `json.Unmarshal`,
  the parsed HTML table rows, and the paged `ExchangesByPage` fetcher) are
  passed to each operation as explicit oracle arguments, so a theorem
  quantifying over them covers every transport/upstream outcome.
* A Go function returning `(T, error)` is modelled as `Except String T` when
  the two are exclusive, and as a pair when the source can produce both
  (the `ExchangesByPage` result).  A Go runtime panic (out-of-range indexing,
  nil-pointer dereference) is modelled by a distinguished `crash`/`none`
  outcome, never by a default value.
-/

namespace Cmc

/-! ### Go string helpers, modelled on character lists -/

/-- Models strings.TrimSpace: drop leading and trailing whitespace. -/
def trimSpace (s : String) : String :=
  ⟨((s.data.dropWhile Char.isWhitespace).reverse.dropWhile Char.isWhitespace).reverse⟩

/-- Models strings.ToUpper for the ASCII symbols handled by the client. -/
def toUpperGo (s : String) : String := ⟨s.data.map Char.toUpper⟩

/-- Models strings.Replace(s, c, "", -1) for the one-character patterns
"$", "," and "%" used by the source: every occurrence is removed. -/
def removeAll (s : String) (c : Char) : String := ⟨s.data.filter (fun a => a ≠ c)⟩

/-- Models strings.Split on a one-character separator: `splitOnChar c cs`
is the list of separator-free groups; it is never empty. -/
def splitOnChar (c : Char) : List Char → List (List Char)
  | [] => [[]]
  | a :: as =>
    let r := splitOnChar c as
    if a = c then [] :: r
    else
      match r with
      | [] => [[a]]
      | g :: gs => (a :: g) :: gs

/-- Value of a nonempty all-digit group, most significant digit first. -/
def natOfDigits (cs : List Char) : Nat :=
  cs.foldl (fun a c => a * 10 + (c.toNat - 48)) 0

/-- Digit-group parser: `some` exactly when the group is nonempty and
consists of decimal digits only. -/
def digitsToNat? (cs : List Char) : Option Nat :=
  if cs ≠ [] ∧ cs.all Char.isDigit then some (natOfDigits cs) else none

/-! ### Numeric/date coercion (toInt, toFloat, toDate) -/

/-- Models strconv.Atoi on the stripped strings: optional sign then digits. -/
def parseIntGo? (s : String) : Option Int :=
  match s.data with
  | '-' :: r => (digitsToNat? r).map (fun n => -(n : Int))
  | '+' :: r => (digitsToNat? r).map (fun n => (n : Int))
  | r => (digitsToNat? r).map (fun n => (n : Int))

/-- Models toInt: strip "$" and "," everywhere, Atoi, and ignore the parse
error (zero value on failure). -/
def toInt (rawInt : String) : Int :=
  (parseIntGo? (removeAll (removeAll rawInt '$') ',')).getD 0

/-- Models strconv.ParseFloat on plain decimal strings (optional sign,
digits, at most one '.', at least one digit overall), returning the decimal
mantissa and the number of fractional digits.  Exponent/hex/Inf/NaN forms,
which never occur in the scraped cells, are outside the model. -/
def parseFloatParts? (s : String) : Option (Int × Nat) :=
  let signAndRest : Int × List Char :=
    match s.data with
    | '-' :: r => (-1, r)
    | '+' :: r => (1, r)
    | r => (1, r)
  match splitOnChar '.' signAndRest.2 with
  | [ip] => (digitsToNat? ip).map (fun n => (signAndRest.1 * n, 0))
  | [ip, fp] =>
    if ip = [] ∧ fp = [] then none
    else if ip.all Char.isDigit ∧ fp.all Char.isDigit then
      some (signAndRest.1 * (natOfDigits ip * 10 ^ fp.length + natOfDigits fp), fp.length)
    else none
  | _ => none

/-- Models toFloat: strip "$", "," and "%" everywhere, ParseFloat, and ignore
the parse error (zero value on failure). -/
def toFloat (rawFloat : String) : ℚ :=
  match parseFloatParts? (removeAll (removeAll (removeAll rawFloat '$') ',') '%') with
  | none => 0
  | some p => (p.1 : ℚ) / (10 : ℚ) ^ p.2

/-- Calendar date; the zero value of Go's time.Time is January 1 of year 1. -/
structure Date where
  year : Nat
  month : Nat
  day : Nat
deriving DecidableEq

/-- Zero value of time.Time, as a date. -/
def zeroDate : Date := ⟨1, 1, 1⟩

/-- Gregorian leap-year rule, as implemented by Go's time package. -/
def isLeapYear (y : Nat) : Bool := (y % 4 = 0 ∧ y % 100 ≠ 0) ∨ y % 400 = 0

/-- Number of days of a month, used by time.Parse to validate the day. -/
def daysInMonth (y : Nat) (m : Nat) : Nat :=
  match m with
  | 1 => 31
  | 2 => if isLeapYear y then 29 else 28
  | 3 => 31
  | 4 => 30
  | 5 => 31
  | 6 => 30
  | 7 => 31
  | 8 => 31
  | 9 => 30
  | 10 => 31
  | 11 => 30
  | 12 => 31
  | _ => 0

/-- Models time.Parse with layout "2006-01-02": a 4-digit year, a 2-digit
month in 1..12 and a 2-digit day valid for that month, separated by '-'. -/
def parseDate? (s : String) : Option Date :=
  match splitOnChar '-' s.data with
  | [ys, ms, ds] =>
    if ys.length = 4 ∧ ms.length = 2 ∧ ds.length = 2 then
      match digitsToNat? ys, digitsToNat? ms, digitsToNat? ds with
      | some y, some m, some d =>
        if 1 ≤ m ∧ m ≤ 12 ∧ 1 ≤ d ∧ d ≤ daysInMonth y m then some ⟨y, m, d⟩ else none
      | _, _, _ => none
    else none
  | _ => none

/-- Models toDate: time.Parse with the fixed layout, error ignored
(zero time on failure). -/
def toDate (rawTime : String) : Date := (parseDate? rawTime).getD zeroDate

/-! ### Data model (package types; fields as used by the client and §3) -/

namespace types

/-- types.Listing as used by the client: identity record of a coin. -/
structure Listing where
  ID : Int
  Name : String
  Symbol : String
  WebsiteSlug : String
deriving DecidableEq

/-- Currency-denominated quote of a ticker. -/
structure Quote where
  Price : ℚ
  Volume24h : ℚ
  MarketCap : ℚ
  PercentChange24h : ℚ
deriving DecidableEq

/-- types.Ticker as used by the client; Quotes is the currency-code map,
modelled as an association list. -/
structure Ticker where
  ID : Int
  Rank : Int
  Symbol : String
  Slug : String
  Quotes : List (String × Quote)
deriving DecidableEq

/-- types.Market: one row of a coin's trading-venue table. -/
structure Market where
  Rank : Int
  Exchange : String
  ExchangeSlug : String
  Pair : String
  VolumeUSD : ℚ
  Price : ℚ
  VolumePercent : ℚ
  Category : String
  FeeType : String
  Updated : String
deriving DecidableEq

/-- types.Exchange: one row of the exchange-rankings table. -/
structure Exchange where
  Rank : Int
  Name : String
  Slug : String
  LogoImg : String
  AdjustVolume24h : ℚ
  Volume24h : ℚ
  Volume7d : ℚ
  Volume30d : ℚ
  MarketsNumber : Int
  Change24h : ℚ
  LaunchedAt : Date
deriving DecidableEq

end types

/-! ### Transport adapter (doReq / makeReq) -/

/-- Outcome of client.Do: the HTTP status and the body read from it. -/
structure HttpResp where
  status : Int
  body : String
deriving DecidableEq

/-- Models doReq: a connection failure propagates; a status other than 200
yields an error whose message is the response body; otherwise the body. -/
def doReq (conn : Except String HttpResp) : Except String String :=
  match conn with
  | .error e => .error e
  | .ok r => if r.status ≠ 200 then .error r.body else .ok r.body

/-- Models makeReq: request construction for a constant URL cannot fail, so
it is doReq's outcome. -/
def makeReq (conn : Except String HttpResp) : Except String String := doReq conn

/-- The resp slice a caller sees when it ignores makeReq's error, as
Listings and Tickers do: nil (here "") on failure, the body otherwise. -/
def respBytes (conn : Except String HttpResp) : String :=
  match makeReq conn with
  | .error _ => ""
  | .ok b => b

/-! ### Listings and CoinID -/

/-- Models Listings.  As in the source, the err of makeReq is overwritten by
json.Unmarshal's err without ever being checked, so the outcome depends only
on unmarshalling resp (which is nil when the request failed). -/
def Listings (conn : Except String HttpResp)
    (unmarshal : String → Except String (List types.Listing)) :
    Except String (List types.Listing) :=
  match unmarshal (respBytes conn) with
  | .error e => .error e
  | .ok data => .ok data

/-- Symbol normalization of CoinID and CoinSlug: TrimSpace then ToUpper. -/
def normalizeSymbol (symbol : String) : String := toUpperGo (trimSpace symbol)

/-- Models CoinID over the outcome of its Listings() call: normalize the
symbol, propagate the listing failure, scan for the first exact symbol
match, and report "coin not found" when there is none. -/
def CoinID (symbol : String) (listingsRes : Except String (List types.Listing)) :
    Except String Int :=
  match listingsRes with
  | .error e => .error e
  | .ok listings =>
    match listings.find? (fun l => decide (l.Symbol = normalizeSymbol symbol)) with
    | some l => .ok l.ID
    | none => .error "coin not found"

/-! ### Tickers -/

/-- Metadata of the tickers envelope. -/
structure TickersMetadata where
  Timestamp : Int
  NumCryptoCurrencies : Int
  Error : String
deriving DecidableEq

/-- tickersMedia: the decoded tickers envelope.  Data is the symbol-keyed
map of the wire format; since Go map iteration order is unspecified, it is
modelled as a list in an arbitrary order. -/
structure TickersMedia where
  Data : List types.Ticker
  Metadata : TickersMetadata
deriving DecidableEq

/-- Rank order used by Tickers' sort. -/
def tickerLE (a b : types.Ticker) : Prop := a.Rank ≤ b.Rank

instance : DecidableRel tickerLE :=
  fun a b => inferInstanceAs (Decidable (a.Rank ≤ b.Rank))

instance : IsTotal types.Ticker tickerLE := ⟨fun a b => Int.le_total a.Rank b.Rank⟩

instance : IsTrans types.Ticker tickerLE := ⟨fun _ _ _ => Int.le_trans⟩

/-- Models Tickers after the query-string construction: the transport err is
overwritten unchecked (as in the source), the envelope is decoded, the map
is flattened to a list, a nonempty Metadata.Error aborts with that message,
and otherwise the list is sorted ascending by Rank.  sort.Slice with the
strict Rank comparison is modelled as insertionSort by `tickerLE`; the order
of equal ranks is unspecified upstream. -/
def Tickers (conn : Except String HttpResp)
    (unmarshal : String → Except String TickersMedia) :
    Except String (List types.Ticker) :=
  match unmarshal (respBytes conn) with
  | .error e => .error e
  | .ok body =>
    if body.Metadata.Error ≠ "" then .error body.Metadata.Error
    else .ok (List.insertionSort tickerLE body.Data)

/-! ### Ticker, CoinSlug and Price -/

/-- Models Ticker over the outcomes of its collaborators: CoinID failure
propagates, then the detail request and its decoding; the decoded envelope's
data may be nil (`none`). -/
def TickerCall (symbol : String) (listingsRes : Except String (List types.Listing))
    (conn : Except String HttpResp)
    (unmarshal : String → Except String (Option types.Ticker)) :
    Except String (Option types.Ticker) :=
  match CoinID symbol listingsRes with
  | .error e => .error e
  | .ok _ =>
    match makeReq conn with
    | .error e => .error e
    | .ok resp =>
      match unmarshal resp with
      | .error e => .error e
      | .ok t => .ok t

/-- Models Price over the outcome of its Ticker call.  Go returns the pair
(float64, error); both components are kept.  A Convert key absent from
Quotes makes the source dereference a nil *Quote, a runtime panic, modelled
as `none`. -/
def Price (convert : String) (tickerRes : Except String (Option types.Ticker)) :
    Option (ℚ × Option String) :=
  match tickerRes with
  | .error e => some (0, some e)
  | .ok none => some (0, some "coin not found")
  | .ok (some coin) =>
    match coin.Quotes.find? (fun q => decide (q.1 = convert)) with
    | none => none
    | some q => some (q.2.Price, none)

/-! ### Markets (HTML table extractor) -/

/-- MarketsOptions of the source. -/
structure MarketsOptions where
  Symbol : String
  Slug : String
deriving DecidableEq

/-- One td cell of a scraped table row: its data-sort attribute (empty when
absent), its visible text, and the href of an embedded link if present. -/
structure Td where
  dataSort : String
  text : String
  href : Option String
deriving DecidableEq

/-- Cell extraction: the data-sort attribute takes precedence over the
visible text when it is nonempty. -/
def cellValue (td : Td) : String := if td.dataSort ≠ "" then td.dataSort else td.text

/-- Final path segment of a link, as computed by splitting on "/" and taking
the last part (strings.Split never returns an empty list). -/
def lastSegment (link : String) : String := ⟨(splitOnChar '/' link.data).getLastD []⟩

/-- Exchange slug of a market row: the final path segment of the link of the
second cell, empty when the cell or its link is absent. -/
def rowSlug (row : List Td) : String :=
  match row[1]? with
  | none => ""
  | some td =>
    match td.href with
    | none => ""
    | some link => lastSegment link

/-- Outcome of a Go function that can also panic at runtime. -/
inductive GoResult (α : Type) where
  | ok (val : α)
  | err (msg : String)
  | crash
deriving DecidableEq

/-- One market record from a row, by positional indexing of the cell values
as in the source; a row with fewer than 9 cells makes the source index out
of range (`none`, a runtime panic). -/
def marketOfRow (row : List Td) : Option types.Market :=
  if h : 9 ≤ (row.map cellValue).length then
    some
      { Rank := toInt ((row.map cellValue).get ⟨0, by omega⟩)
        Exchange := (row.map cellValue).get ⟨1, by omega⟩
        ExchangeSlug := rowSlug row
        Pair := (row.map cellValue).get ⟨2, by omega⟩
        VolumeUSD := toFloat ((row.map cellValue).get ⟨3, by omega⟩)
        Price := toFloat ((row.map cellValue).get ⟨4, by omega⟩)
        VolumePercent := toFloat ((row.map cellValue).get ⟨5, by omega⟩)
        Category := (row.map cellValue).get ⟨6, by omega⟩
        FeeType := (row.map cellValue).get ⟨7, by omega⟩
        Updated := (row.map cellValue).get ⟨8, by omega⟩ }
  else none

/-- The row loop of Markets: records are accumulated in order; the first
short row panics (`none`), as the source's out-of-range indexing does. -/
def extractMarkets : List (List Td) → Option (List types.Market)
  | [] => some []
  | row :: rest =>
    match marketOfRow row with
    | none => none
    | some m =>
      match extractMarkets rest with
      | none => none
      | some ms => some (m :: ms)

/-- Models Markets over its collaborators' outcomes: nil options and the
empty Symbol/Slug pair are rejected before anything else; with an empty Slug
the CoinSlug resolution result is consulted; then the page for the slug is
fetched and scraped row by row. -/
def Markets (options : Option MarketsOptions) (coinSlugRes : Except String String)
    (fetchPage : String → Except String (List (List Td))) :
    GoResult (List types.Market) :=
  match options with
  | none => .err "nil options"
  | some o =>
    if o.Slug = "" ∧ o.Symbol = "" then .err "empty slug and Symbol"
    else
      match (if o.Slug = "" then coinSlugRes else .ok o.Slug) with
      | .error e => .err e
      | .ok slug =>
        match fetchPage slug with
        | .error e => .err e
        | .ok rows =>
          match extractMarkets rows with
          | none => .crash
          | some ms => .ok ms

/-! ### Exchanges (paged fetch) -/

/-- Outcome of one ExchangesByPage call: the Go pair of the row list and the
error.  In the source, the only error path (a goquery failure) returns a nil
row slice together with the error. -/
abbrev PageResult := List types.Exchange × Option String

/-- The loop of Exchanges, with explicit fuel; `none` models running out of
the unbounded loop.  As in the source, the empty-page break is tested before
the error check, and on success the page's rows are appended and the next
page is fetched. -/
def exchangesLoop (fetchPage : Nat → PageResult) :
    Nat → Nat → List types.Exchange → Option (Except String (List types.Exchange))
  | 0, _, _ => none
  | fuel + 1, i, acc =>
    if (fetchPage i).1 = [] then some (.ok acc)
    else
      match (fetchPage i).2 with
      | some e => some (.error ("Exchanges error: " ++ e))
      | none => exchangesLoop fetchPage fuel (i + 1) (acc ++ (fetchPage i).1)

/-- Models Exchanges: run the page loop from page 1 with an empty
accumulator. -/
def Exchanges (fetchPage : Nat → PageResult) (fuel : Nat) :
    Option (Except String (List types.Exchange)) :=
  exchangesLoop fetchPage fuel 1 []

/-! ### Concrete collaborator outcomes used by witnesses and counterexamples -/

/-- A sample exchange row. -/
def ex1 : types.Exchange := ⟨1, "binance", "binance", "", 0, 0, 0, 0, 0, 0, zeroDate⟩

/-- A second sample exchange row. -/
def ex2 : types.Exchange := ⟨2, "kraken", "kraken", "", 0, 0, 0, 0, 0, 0, zeroDate⟩

/-- Page oracle where page 1 succeeds with one row and page 2 fails with
"boom"; as in the source's only error path, the error comes with a nil row
slice. -/
def fetchPage1 : Nat → PageResult
  | 1 => ([ex1], none)
  | _ => ([], some "boom")

/-- Page oracle with two nonempty error-free pages followed by empty pages. -/
def fetchPage2 : Nat → PageResult
  | 1 => ([ex1], none)
  | 2 => ([ex2], none)
  | _ => ([], none)

/-- A market table row with a single td, fewer than the 9 expected. -/
def shortRow : List Td := [⟨"1", "", none⟩]

/-- Markets options carrying a slug only. -/
def mopts3 : MarketsOptions := ⟨"", "bitcoin"⟩

/-- Market-page oracle serving one short row for every slug. -/
def fetchPage3 : String → Except String (List (List Td)) := fun _ => .ok [shortRow]

/-- json.Unmarshal behavior on the listings envelope: a nil/empty body is a
syntax error ("unexpected end of JSON input"); the test body decodes to an
empty listing array. -/
def unmarshal0 : String → Except String (List types.Listing) := fun s =>
  if s = "" then .error "unexpected end of JSON input" else .ok []

/-- A successful transport outcome with an opaque body. -/
def conn1 : Except String HttpResp := .ok ⟨200, "{}"⟩

/-- A sample USD quote. -/
def quoteUSD : types.Quote := ⟨7000, 0, 0, 0⟩

/-- A rank-1 ticker. -/
def tick1 : types.Ticker := ⟨1, 1, "BTC", "bitcoin", [("USD", quoteUSD)]⟩

/-- A rank-2 ticker. -/
def tick2 : types.Ticker := ⟨1027, 2, "ETH", "ethereum", []⟩

/-- Decoder yielding an out-of-rank-order map and no metadata error. -/
def unmarshal1 : String → Except String TickersMedia := fun _ =>
  .ok ⟨[tick2, tick1], ⟨0, 0, ""⟩⟩

/-- Decoder yielding populated data together with a metadata error. -/
def unmarshal2 : String → Except String TickersMedia := fun _ =>
  .ok ⟨[tick1], ⟨0, 0, "id not found"⟩⟩

/-! ### Theorems -/

/-- Helper: from page `i` with `d = k - i` pages to go before the first
empty page `k`, a fueled run of the loop returns the accumulator followed by
the concatenation of the rows of pages `i, …, k-1`. -/
theorem exchangesLoop_eq_concat (fetchPage : Nat → PageResult) (k : Nat)
    (hk : (fetchPage k).1 = []) :
    ∀ (d fuel i : Nat) (acc : List types.Exchange), i + d = k → d < fuel →
      (∀ j, i ≤ j → j < k → (fetchPage j).1 ≠ [] ∧ (fetchPage j).2 = none) →
      exchangesLoop fetchPage fuel i acc =
        some (.ok (acc ++ ((List.range' i d).map (fun j => (fetchPage j).1)).flatten)) := by
  intro d
  induction d with
  | zero =>
    intro fuel i acc hik hfuel _
    obtain ⟨f, rfl⟩ : ∃ f, fuel = f + 1 := ⟨fuel - 1, by omega⟩
    have hik2 : i = k := by omega
    subst hik2
    simp [exchangesLoop, hk]
  | succ d ih =>
    intro fuel i acc hik hfuel hpre
    obtain ⟨f, rfl⟩ : ∃ f, fuel = f + 1 := ⟨fuel - 1, by omega⟩
    have hrow := hpre i (Nat.le_refl i) (by omega)
    have hrec := ih f (i + 1) (acc ++ (fetchPage i).1) (by omega) (by omega)
      (fun j hj1 hj2 => hpre j (by omega) hj2)
    rw [exchangesLoop, if_neg hrow.1, hrow.2, hrec, List.range'_succ i d 1]
    simp [List.append_assoc]

/-- C1: the claim that a failing page fetch makes Exchanges return the error
wrapped with "Exchanges error: " is false on the source: because the
empty-slice break precedes the error check and the failing ExchangesByPage
returns a nil slice with its error, the loop breaks and Exchanges returns
the partial page-1 result with a nil error; no error value is ever
produced on this run. -/
theorem Exchanges_error_swallowed :
    Exchanges fetchPage1 2 = some (.ok [ex1]) ∧
      ∀ e, Exchanges fetchPage1 2 ≠ some (.error e) := by
  refine ⟨rfl, fun e h => ?_⟩
  rw [show Exchanges fetchPage1 2 = some (.ok [ex1]) from rfl] at h
  simp at h

/-- C2: when page `k` is the first page with zero rows (given the source
invariant that a page error comes with a nil row slice), Exchanges
terminates with enough fuel and returns the concatenation of the rows of
pages `1, …, k-1`, the empty page excluded. -/
theorem Exchanges_concatenation (fetchPage : Nat → PageResult) (k fuel : Nat)
    (h1 : 1 ≤ k) (hk : (fetchPage k).1 = [])
    (hmin : ∀ j, 1 ≤ j → j < k → (fetchPage j).1 ≠ [])
    (hinv : ∀ j, (fetchPage j).2 ≠ none → (fetchPage j).1 = [])
    (hfuel : k ≤ fuel) :
    Exchanges fetchPage fuel =
      some (.ok (((List.range' 1 (k - 1)).map (fun j => (fetchPage j).1)).flatten)) := by
  have h := exchangesLoop_eq_concat fetchPage k hk (k - 1) fuel 1 [] (by omega) (by omega)
    (fun j hj1 hj2 => ⟨hmin j hj1 hj2, by
      by_cases hn : (fetchPage j).2 = none
      · exact hn
      · exact absurd (hinv j hn) (hmin j hj1 hj2)⟩)
  simpa [Exchanges] using h

/-- C2 witness: a three-page run (two nonempty pages, then an empty one)
returns pages 1 and 2 concatenated. -/
theorem Exchanges_concatenation_witness :
    Exchanges fetchPage2 3 =
      some (.ok (((List.range' 1 (3 - 1)).map (fun j => (fetchPage2 j).1)).flatten)) := by
  refine Exchanges_concatenation fetchPage2 3 3 (by omega) rfl ?_ ?_ (by omega)
  · intro j hj1 hj2
    interval_cases j
    · simp [fetchPage2]
    · simp [fetchPage2]
  · intro j hn
    exfalso
    apply hn
    match j with
    | 0 => rfl
    | 1 => rfl
    | 2 => rfl
    | n + 3 => rfl

/-- Helper: a row with fewer than 9 cells yields no market record (the
source's out-of-range panic). -/
theorem marketOfRow_eq_none {row : List Td} (h : row.length < 9) :
    marketOfRow row = none := by
  have hlen : ¬ 9 ≤ (row.map cellValue).length := by
    rw [List.length_map]
    omega
  unfold marketOfRow
  exact dif_neg hlen

/-- Helper: a failing row anywhere makes the whole row scan fail. -/
theorem extractMarkets_eq_none {rows : List (List Td)} {row : List Td}
    (hmem : row ∈ rows) (hrow : marketOfRow row = none) :
    extractMarkets rows = none := by
  induction rows with
  | nil => cases hmem
  | cons r rest ih =>
    rcases List.mem_cons.mp hmem with h | h
    · subst h
      rw [extractMarkets, hrow]
    · rw [extractMarkets]
      cases hr : marketOfRow r with
      | none => rfl
      | some m => rw [ih h]

/-- C3 counterexample: on a fetched page containing a row with a single
column, Markets crashes (out-of-range positional indexing) and in
particular does not fail with a decode error. -/
theorem Markets_short_row_not_decode_error :
    Markets (some mopts3) (.ok "bitcoin") fetchPage3 = .crash ∧
      ∀ e, Markets (some mopts3) (.ok "bitcoin") fetchPage3 ≠ GoResult.err e := by
  refine ⟨rfl, fun e h => ?_⟩
  rw [show Markets (some mopts3) (.ok "bitcoin") fetchPage3 = .crash from rfl] at h
  simp at h

/-- C3 (amended): for every fetched market page containing a body row with
fewer columns than the 9 expected, Markets crashes through out-of-range
positional indexing (a runtime panic), rather than failing with a
DecodeError. -/
theorem Markets_short_row_crashes (o : MarketsOptions) (coinSlugRes : Except String String)
    (fetchPage : String → Except String (List (List Td))) (slug : String)
    (rows : List (List Td)) (row : List Td)
    (hne : ¬ (o.Slug = "" ∧ o.Symbol = ""))
    (hslug : (if o.Slug = "" then coinSlugRes else .ok o.Slug) = .ok slug)
    (hfetch : fetchPage slug = .ok rows)
    (hmem : row ∈ rows) (hshort : row.length < 9) :
    Markets (some o) coinSlugRes fetchPage = .crash := by
  simp only [Markets]
  rw [if_neg hne, hslug]
  simp only [hfetch, extractMarkets_eq_none hmem (marketOfRow_eq_none hshort)]

/-- C3 witness for the amended claim, on the concrete one-column row. -/
theorem Markets_short_row_crashes_witness :
    Markets (some mopts3) (.ok "unused") fetchPage3 = .crash :=
  Markets_short_row_crashes mopts3 (.ok "unused") fetchPage3 "bitcoin" [shortRow] shortRow
    (by decide) rfl rfl (List.mem_singleton.mpr rfl) (by decide)

/-- C4: the claim that Listings propagates a transport failure is false on
the source: the makeReq error is overwritten by json.Unmarshal's error
before being checked, so on any transport failure Listings returns the
decode error produced by unmarshalling the nil body ("unexpected end of
JSON input"), not the transport error. -/
theorem Listings_transport_error_lost (e : String)
    (unmarshal : String → Except String (List types.Listing))
    (hu : unmarshal "" = .error "unexpected end of JSON input") :
    Listings (.error e) unmarshal = .error "unexpected end of JSON input" := by
  have hresp : respBytes (.error e) = "" := rfl
  unfold Listings
  rw [hresp, hu]

/-- C4 witness: a concrete connection failure surfaces as the decode
error. -/
theorem Listings_transport_error_lost_witness :
    Listings (.error "connection refused") unmarshal0 =
      .error "unexpected end of JSON input" :=
  Listings_transport_error_lost "connection refused" unmarshal0 rfl

/-- C5: every successful Tickers result is sorted ascending by Rank: for
indices i < j the rank at i is at most the rank at j. -/
theorem Tickers_sorted_by_rank (conn : Except String HttpResp)
    (unmarshal : String → Except String TickersMedia) (l : List types.Ticker)
    (hok : Tickers conn unmarshal = .ok l) :
    ∀ i j : Fin l.length, (i : ℕ) < (j : ℕ) → (l.get i).Rank ≤ (l.get j).Rank := by
  intro i j hij
  unfold Tickers at hok
  split at hok
  · exact absurd hok (by simp)
  · split at hok
    · exact absurd hok (by simp)
    · have hl := Except.ok.inj hok
      subst hl
      exact (List.sorted_insertionSort tickerLE _).rel_get_of_lt hij

/-- C5 witness: a two-ticker response arriving in reverse rank order is
returned sorted. -/
theorem Tickers_sorted_by_rank_witness :
    (([tick1, tick2].get ⟨0, by decide⟩).Rank ≤ ([tick1, tick2].get ⟨1, by decide⟩).Rank) :=
  Tickers_sorted_by_rank conn1 unmarshal1 [tick1, tick2] rfl
    ⟨0, by decide⟩ ⟨1, by decide⟩ (by decide)

/-- C6: with a well-formed (decodable) response, a nonempty metadata error
field makes Tickers fail with exactly that message, whether or not data is
populated, and with an empty error field Tickers succeeds. -/
theorem Tickers_metadata_error (conn : Except String HttpResp)
    (unmarshal : String → Except String TickersMedia) (body : TickersMedia)
    (hu : unmarshal (respBytes conn) = .ok body) :
    (body.Metadata.Error ≠ "" → Tickers conn unmarshal = .error body.Metadata.Error) ∧
      (body.Metadata.Error = "" →
        Tickers conn unmarshal = .ok (List.insertionSort tickerLE body.Data)) := by
  unfold Tickers
  simp only [hu]
  constructor
  · intro h
    rw [if_pos h]
  · intro h
    rw [if_neg (fun hne => hne h)]

/-- C6 witness: a response with populated data and metadata error
"id not found" makes Tickers fail with that message. -/
theorem Tickers_metadata_error_witness :
    Tickers conn1 unmarshal2 = .error "id not found" :=
  (Tickers_metadata_error conn1 unmarshal2 ⟨[tick1], ⟨0, 0, "id not found"⟩⟩ rfl).1
    (by decide)

/-- C7: CoinID is insensitive to the case and surrounding whitespace of the
symbol ("btc", " btc " and "BTC" are interchangeable), and when no listing
carries the normalized symbol it fails with "coin not found". -/
theorem CoinID_case_insensitive (res : Except String (List types.Listing)) :
    CoinID "btc" res = CoinID "BTC" res ∧
      CoinID " btc " res = CoinID "BTC" res ∧
      ∀ listings, res = .ok listings → (∀ l ∈ listings, l.Symbol ≠ "BTC") →
        CoinID "btc" res = .error "coin not found" := by
  have h1 : normalizeSymbol "btc" = normalizeSymbol "BTC" := by decide
  have h2 : normalizeSymbol " btc " = normalizeSymbol "BTC" := by decide
  have h3 : normalizeSymbol "btc" = "BTC" := by decide
  refine ⟨?_, ?_, ?_⟩
  · unfold CoinID
    rw [h1]
  · unfold CoinID
    rw [h2]
  · rintro listings rfl hsym
    have hfind : listings.find? (fun l => decide (l.Symbol = normalizeSymbol "btc")) = none := by
      refine List.find?_eq_none.mpr fun x hx => ?_
      simp only [h3, decide_eq_true_eq]
      exact hsym x hx
    simp only [CoinID]
    rw [hfind]

/-- C7 witness: on the empty listing set, "btc" and "BTC" agree and both
fail with "coin not found". -/
theorem CoinID_case_insensitive_witness :
    CoinID "btc" (.ok []) = CoinID "BTC" (.ok []) ∧
      CoinID "btc" (.ok []) = .error "coin not found" :=
  ⟨(CoinID_case_insensitive (.ok [])).1,
    (CoinID_case_insensitive (.ok [])).2.2 [] rfl (fun l hl => absurd hl (List.not_mem_nil l))⟩

/-- C8: with both Symbol and Slug empty, Markets fails with the
invalid-argument error, and the result does not depend on the slug resolver
or the page fetcher: no network collaborator is consulted. -/
theorem Markets_empty_options (coinSlugRes₁ coinSlugRes₂ : Except String String)
    (fetchPage₁ fetchPage₂ : String → Except String (List (List Td))) :
    Markets (some ⟨"", ""⟩) coinSlugRes₁ fetchPage₁ = .err "empty slug and Symbol" ∧
      Markets (some ⟨"", ""⟩) coinSlugRes₁ fetchPage₁ =
        Markets (some ⟨"", ""⟩) coinSlugRes₂ fetchPage₂ :=
  ⟨rfl, rfl⟩

/-- C9: the coercions are total functions with zero-value fallbacks:
toFloat maps "$1,234.56" to 1234.56 and "12.3%" to 12.3 and the malformed
"N/A" to 0; toDate maps "2018-01-02" to that date and "bad" to the zero
date. -/
theorem coercions_total_examples :
    toFloat "$1,234.56" = 1234.56 ∧ toFloat "12.3%" = 12.3 ∧ toFloat "N/A" = 0 ∧
      toDate "2018-01-02" = ⟨2018, 1, 2⟩ ∧ toDate "bad" = zeroDate := by
  refine ⟨?_, ?_, ?_, by decide, by decide⟩
  · have h : parseFloatParts? (removeAll (removeAll (removeAll "$1,234.56" '$') ',') '%') =
        some (123456, 2) := by decide
    unfold toFloat
    rw [h]
    norm_num
  · have h : parseFloatParts? (removeAll (removeAll (removeAll "12.3%" '$') ',') '%') =
        some (123, 1) := by decide
    unfold toFloat
    rw [h]
    norm_num
  · have h : parseFloatParts? (removeAll (removeAll (removeAll "N/A" '$') ',') '%') =
        none := by decide
    unfold toFloat
    rw [h]

/-- C10: whenever Price's returned error is non-nil the returned value is
exactly 0, and a nonzero value is only returned together with a nil
error. -/
theorem Price_zero_with_error (convert : String)
    (tickerRes : Except String (Option types.Ticker)) :
    (∀ p e, Price convert tickerRes = some (p, some e) → p = 0) ∧
      ∀ p oe, Price convert tickerRes = some (p, oe) → p ≠ 0 → oe = none := by
  cases tickerRes with
  | error e =>
    refine ⟨fun p e2 h => ?_, fun p oe h hp => ?_⟩
    · simp only [Price, Option.some.injEq, Prod.mk.injEq] at h
      exact h.1.symm
    · simp only [Price, Option.some.injEq, Prod.mk.injEq] at h
      exact absurd h.1.symm hp
  | ok t =>
    cases t with
    | none =>
      refine ⟨fun p e2 h => ?_, fun p oe h hp => ?_⟩
      · simp only [Price, Option.some.injEq, Prod.mk.injEq] at h
        exact h.1.symm
      · simp only [Price, Option.some.injEq, Prod.mk.injEq] at h
        exact absurd h.1.symm hp
    | some coin =>
      cases hq : coin.Quotes.find? (fun q => decide (q.1 = convert)) with
      | none =>
        refine ⟨fun p e2 h => ?_, fun p oe h hp => ?_⟩
        · simp only [Price, hq] at h
          exact Option.noConfusion h
        · simp only [Price, hq] at h
          exact Option.noConfusion h
      | some q =>
        refine ⟨fun p e2 h => ?_, fun p oe h hp => ?_⟩
        · simp only [Price, hq, Option.some.injEq, Prod.mk.injEq] at h
          exact absurd h.2 (by simp)
        · simp only [Price, hq, Option.some.injEq, Prod.mk.injEq] at h
          exact h.2.symm

/-- C10 witness: a failing ticker resolution yields the pair (0, error). -/
theorem Price_zero_with_error_witness :
    Price "USD" (.error "request failed") = some (0, some "request failed") ∧ (0 : ℚ) = 0 :=
  ⟨rfl, (Price_zero_with_error "USD" (.error "request failed")).1 0 "request failed" rfl⟩

end Cmc
